import Mathlib

/-!
Shallow embedding of the weekly scheduling engine of the idarati school
management application: the time-grid conversion `timeToMinutes`, the
conflict detector `isConflict`, the overlap layout engine
(`findOverlappingGroup`, `layoutGroup`), the session repository operations
(add / edit / duplicate / drop-move / delete) and the attendance upsert
`recordAttendance`, together with theorems settling the specification
claims about them.

JavaScript numbers reaching these functions are integer minute counts, so
they are embedded as `Int`; `NaN` (produced by `Number(...)` on
non-numeric text) is embedded as `none : Option Int`, and the JS
comparisons `<` / `>` that are false on `NaN` are embedded accordingly.
-/

namespace Idarati

/-! ### JS string-to-number fragment

`Number(s)` as used by `timeToMinutes`: the inputs that occur are
non-negative decimal integer strings, empty strings and non-numeric text.
Leading/trailing ASCII whitespace is ignored, an all-whitespace string is
`0`, and anything else in the fragment is `NaN` (`none`).  Signs,
fractions and hex forms never occur in this code base and are outside the
modelled fragment. -/

/-- ASCII whitespace recognised by the embedding of `Number` / `trim`. -/
def isWsChar (c : Char) : Bool :=
  c.toNat = 32 || c.toNat = 9 || c.toNat = 13 || c.toNat = 10

/-- ASCII decimal digit. -/
def isDigitChar (c : Char) : Bool :=
  48 ≤ c.toNat && c.toNat ≤ 57

/-- Value of a decimal digit string (most significant first). -/
def digitsVal (l : List Char) : Nat :=
  l.foldl (fun n c => n * 10 + (c.toNat - 48)) 0

/-- Drop leading and trailing whitespace characters. -/
def trimChars (l : List Char) : List Char :=
  ((l.dropWhile isWsChar).reverse.dropWhile isWsChar).reverse

/-- Embedding of `String.prototype.trim`. -/
def jsTrim (s : String) : String :=
  ⟨trimChars s.data⟩

/-- Embedding of `String.prototype.toLowerCase` (ASCII fragment). -/
def jsToLowerCase (s : String) : String :=
  ⟨s.data.map Char.toLower⟩

/-- Embedding of `Number(s)` on the fragment described above;
`none` stands for `NaN`. -/
def jsNumber (s : String) : Option Int :=
  let t := trimChars s.data
  if t.isEmpty then some 0
  else if t.all isDigitChar then some (Int.ofNat (digitsVal t))
  else none

/-- `String.prototype.split` on a single-character separator, over the
character list: `"".split(c)` is `[""]`, a trailing separator yields a
trailing empty component, exactly as in JS. -/
def splitOnChar (sep : Char) : List Char → List (List Char)
  | [] => [[]]
  | c :: rest =>
    let r := splitOnChar sep rest
    if c = sep then [] :: r
    else
      match r with
      | [] => [[c]]
      | h :: t => (c :: h) :: t

/-- `time.split(':')` as strings. -/
def jsSplitColon (time : String) : List String :=
  (splitOnChar ':' time.data).map (fun cs => ⟨cs⟩)

/-- `timeToMinutes` from the schedule page:
`if (!time) return 0; const [hour, minute] = time.split(':').map(Number);
return (hour - 8) * 60 + minute;`.  A missing component destructures to
`undefined`, whose arithmetic is `NaN`, hence the `Option.join`. -/
def timeToMinutes (time : String) : Option Int :=
  if time = "" then some 0
  else
    let parts := (jsSplitColon time).map jsNumber
    match (parts[0]?).join, (parts[1]?).join with
    | some hour, some minute => some ((hour - 8) * 60 + minute)
    | _, _ => none

/-- JS `<` on possibly-`NaN` numbers: any comparison with `NaN` is false. -/
def jsLt (a b : Option Int) : Bool :=
  match a, b with
  | some x, some y => decide (x < y)
  | _, _ => false

/-- JS `+` of a possibly-`NaN` number and an integer. -/
def optAdd (a : Option Int) (b : Int) : Option Int :=
  a.map (· + b)

/-! ### Data model -/

/-- `ScheduledSession` from `types/index.ts`. -/
structure ScheduledSession where
  id : String
  groupId : String
  subjectId : Option String
  courseId : Option String
  day : String
  timeSlot : String
  classroom : String
  duration : Int
  deriving DecidableEq, Repr

/-! ### Conflict detector -/

/-- Body of the `for` loop of `isConflict`: does `session` clash with the
dragged session placed at `newDay` / `[newStart, newEnd)`?  The loop skips
the dragged session's own entry (by id) and sessions on other days; on a
strict interval overlap it reports a clash when the group ids coincide or
the trimmed, lowercased classroom labels coincide and are non-empty. -/
def sessionClash (draggedSession : ScheduledSession) (draggedSessionId newDay : String)
    (newStart newEnd : Option Int) (session : ScheduledSession) : Bool :=
  if session.id == draggedSessionId then false
  else if session.day != newDay then false
  else
    let sessionStart := timeToMinutes session.timeSlot
    let sessionEnd := optAdd sessionStart session.duration
    if jsLt newStart sessionEnd && jsLt sessionStart newEnd then
      (session.groupId == draggedSession.groupId) ||
      ((jsToLowerCase (jsTrim session.classroom) == jsToLowerCase (jsTrim draggedSession.classroom))
        && (jsTrim session.classroom != ""))
    else false

/-- `isConflict` from the schedule page: find the dragged session by id
(`false` when absent), compute the candidate interval and scan all
sessions for a clash (the `for`-loop with early `return true` is the
`List.any`). -/
def isConflict (draggedSessionId newDay newTimeSlot : String)
    (allSessions : List ScheduledSession) : Bool :=
  match allSessions.find? (fun s => s.id == draggedSessionId) with
  | none => false
  | some draggedSession =>
    let newStart := timeToMinutes newTimeSlot
    let newEnd := optAdd newStart draggedSession.duration
    allSessions.any (sessionClash draggedSession draggedSessionId newDay newStart newEnd)

/-! ### Overlap layout engine

`EnrichedSession`: a session with computed start/end minutes, built per
day in `laidOutSessions` via `start: timeToMinutes(s.timeSlot)`,
`end: timeToMinutes(s.timeSlot) + s.duration`.  The layout code only reads
`id`, `start` and `end`, so the embedding keeps exactly those (the `end`
field is called `stop`, since `end` is reserved in Lean). -/

structure EnrichedSession where
  id : String
  start : Int
  stop : Int
  deriving DecidableEq, Repr

/-- Enrichment of a session whose time slot parses (`none` models the
`NaN` geometry that a malformed slot would produce). -/
def enrich (s : ScheduledSession) : Option EnrichedSession :=
  (timeToMinutes s.timeSlot).map (fun st => ⟨s.id, st, st + s.duration⟩)

/-- Inner `forEach` of `findOverlappingGroup`: for each `other` of
`allSessions` (in order), when `current` strictly overlaps it and it is
not yet processed, append it to the group, mark it processed and push it
on the work stack.  State is `(group, processed, toProcess)`; the stack
head is the JS array's last element (so `push` is cons, `pop` is head). -/
def fogStep (current : EnrichedSession) (allSessions : List EnrichedSession)
    (acc : List EnrichedSession × List String × List EnrichedSession) :
    List EnrichedSession × List String × List EnrichedSession :=
  allSessions.foldl
    (fun acc other =>
      let (group, processed, toProcess) := acc
      if current.id != other.id && decide (current.start < other.stop)
          && decide (current.stop > other.start) then
        if processed.contains other.id then acc
        else (group ++ [other], processed ++ [other.id], other :: toProcess)
      else acc)
    acc

/-- The `while (toProcess.length > 0)` loop of `findOverlappingGroup`,
with explicit fuel (each iteration pops one stack entry; `none` on fuel
exhaustion, which `findOverlappingGroup` supplies enough fuel to avoid
for the inputs considered). -/
def fogLoop (allSessions : List EnrichedSession) :
    Nat → List EnrichedSession → List String → List EnrichedSession →
    Option (List EnrichedSession)
  | _, group, _, [] => some group
  | 0, _, _, _ :: _ => none
  | fuel + 1, group, processed, current :: rest =>
    let (group', processed', toProcess') := fogStep current allSessions (group, processed, rest)
    fogLoop allSessions fuel group' processed' toProcess'

/-- `findOverlappingGroup` from the schedule page: transitive-closure
traversal of the strict-overlap relation starting from `startSession`;
returns the group in insertion order (the JS `Set` preserves it). -/
def findOverlappingGroup (startSession : EnrichedSession)
    (allSessions : List EnrichedSession) : Option (List EnrichedSession) :=
  fogLoop allSessions (allSessions.length + 1) [startSession] [startSession.id] [startSession]

/-- First-fit search of `layoutGroup`: walk the columns in order and
append `session` to the first whose last-placed session ends at or before
`session.start`; `some (columns', index)` on success, `none` when no
column fits.  A column is never empty in the algorithm; an empty column is
treated as not fitting. -/
def placeInColumns (session : EnrichedSession) :
    List (List EnrichedSession) → Option (List (List EnrichedSession) × Nat)
  | [] => none
  | col :: rest =>
    match col.getLast? with
    | some lastInColumn =>
      if session.start ≥ lastInColumn.stop then
        some ((col ++ [session]) :: rest, 0)
      else
        (placeInColumns session rest).map (fun p => (col :: p.1, p.2 + 1))
    | none =>
      (placeInColumns session rest).map (fun p => (col :: p.1, p.2 + 1))

/-- One iteration of the `for (const session of group)` loop of
`layoutGroup`: place the session first-fit, or open a new column; record
the column index in the assignment list (the `sessionColumns` map). -/
def lgStep (acc : List (List EnrichedSession) × List (String × Nat))
    (session : EnrichedSession) :
    List (List EnrichedSession) × List (String × Nat) :=
  let (columns, assign) := acc
  match placeInColumns session columns with
  | some (columns', i) => (columns', assign ++ [(session.id, i)])
  | none => (columns ++ [[session]], assign ++ [(session.id, columns.length)])

/-- Stable insertion of a session into a list sorted by ascending start. -/
def insertByStart (a : EnrichedSession) : List EnrichedSession → List EnrichedSession
  | [] => [a]
  | b :: rest =>
    if a.start ≤ b.start then a :: b :: rest else b :: insertByStart a rest

/-- `group.sort((a, b) => a.start - b.start)`: JS `Array.prototype.sort`
is stable, and a stable sort by a total key is unique, so stable insertion
sort produces the same list. -/
def sortByStart : List EnrichedSession → List EnrichedSession
  | [] => []
  | a :: rest => insertByStart a (sortByStart rest)

/-- The column structure built by `layoutGroup` over the group sorted by
ascending start time. -/
def layoutColumns (group : List EnrichedSession) :
    List (List EnrichedSession) × List (String × Nat) :=
  (sortByStart group).foldl lgStep ([], [])

/-- `layoutGroup` from the schedule page: `(maxColumns, sessionColumns)`. -/
def layoutGroup (group : List EnrichedSession) : Nat × List (String × Nat) :=
  let (columns, assign) := layoutColumns group
  (columns.length, assign)

/-- `sessionColumns.get(id)`: the column index assigned to a session id. -/
def colOf (assign : List (String × Nat)) (id : String) : Option Nat :=
  (assign.find? (fun p => p.1 == id)).map Prod.snd

/-! ### Attendance linkage -/

/-- `AttendanceStatus` from `types/index.ts`. -/
inductive AttendanceStatus where
  | present
  | absent
  | late
  | excused
  deriving DecidableEq, Repr

/-- `Attendance` from `types/index.ts`. -/
structure Attendance where
  id : String
  studentId : String
  sessionId : String
  date : String
  status : AttendanceStatus
  deriving DecidableEq, Repr

/-- An incoming record, `Omit<Attendance, 'id'>`. -/
structure AttendanceInput where
  studentId : String
  sessionId : String
  date : String
  status : AttendanceStatus
  deriving DecidableEq, Repr

/-- The composite-key test of `recordAttendance`:
`att.studentId === record.studentId && att.sessionId === record.sessionId
&& att.date === record.date`. -/
def matchesKey (record : AttendanceInput) (att : Attendance) : Bool :=
  att.studentId == record.studentId && att.sessionId == record.sessionId
    && att.date == record.date

/-- Body of `records.forEach` in `recordAttendance`: find the first
existing record with the same `(studentId, sessionId, date)`; overwrite
its status if found, otherwise append a new record with a generated id.
`ids` supplies the generated ids (`generateId()`), `n` counts how many
have been consumed. -/
def upsertOne (ids : Nat → String) (acc : List Attendance × Nat)
    (record : AttendanceInput) : List Attendance × Nat :=
  let (atts, n) := acc
  match atts.findIdx? (matchesKey record) with
  | some i => (atts.modify (fun a => { a with status := record.status }) i, n)
  | none =>
    (atts ++ [⟨ids n, record.studentId, record.sessionId, record.date, record.status⟩], n + 1)

/-- `recordAttendance` from the app context provider (the pure update it
applies to `school.attendance`). -/
def recordAttendance (ids : Nat → String) (atts : List Attendance)
    (records : List AttendanceInput) : List Attendance :=
  (records.foldl (upsertOne ids) (atts, 0)).1

/-! ### Session repository operations -/

/-- Result of `handleDrop`: the session list afterwards, whether the
conflict toast was shown, and whether the schedule was marked dirty. -/
structure DropResult where
  sessions : List ScheduledSession
  conflictToast : Bool
  dirty : Bool
  deriving DecidableEq, Repr

/-- `handleDrop` from the schedule page: reject with an error toast when
`isConflict` reports a conflict; otherwise no-op when the dragged session
is absent or already at the target cell, else rewrite its `day` and
`timeSlot`. -/
def handleDrop (sessions : List ScheduledSession)
    (draggedSessionId day timeSlot : String) : DropResult :=
  if isConflict draggedSessionId day timeSlot sessions then
    ⟨sessions, true, false⟩
  else
    match sessions.find? (fun s => s.id == draggedSessionId) with
    | none => ⟨sessions, false, false⟩
    | some draggedSession =>
      if draggedSession.day == day && draggedSession.timeSlot == timeSlot then
        ⟨sessions, false, false⟩
      else
        ⟨sessions.map (fun s =>
          if s.id == draggedSessionId then { s with day := day, timeSlot := timeSlot } else s),
         false, true⟩

/-- The `entityType` selector of the session form. -/
inductive EntityType where
  | subject
  | course
  deriving DecidableEq, Repr

/-- The fields of `newSessionData` that `handleSessionFormSubmit` reads
into a session (`levelId` and `color` only affect the subject/course
palette, not the session being written). -/
structure SessionFormData where
  entityType : EntityType
  entityId : String
  day : String
  timeSlot : String
  classroom : String
  duration : Int
  groupId : String
  deriving DecidableEq, Repr

/-- The required-field guard of `handleSessionFormSubmit`:
`!entityId || !day || !timeSlot || !classroom || !groupId` (an empty
string is the only falsy string). -/
def formIncomplete (data : SessionFormData) : Bool :=
  data.entityId == "" || data.day == "" || data.timeSlot == ""
    || data.classroom == "" || data.groupId == ""

/-- The updated session built in the `mode === 'edit'` branch: copy the
edited session, overwrite day/timeSlot/classroom/duration/groupId, then
set the selected entity reference and `delete` the other one. -/
def buildUpdatedSession (data : SessionFormData)
    (sessionToEdit : ScheduledSession) : ScheduledSession :=
  let base := { sessionToEdit with
    day := data.day, timeSlot := data.timeSlot, classroom := data.classroom,
    duration := data.duration, groupId := data.groupId }
  match data.entityType with
  | .subject => { base with subjectId := some data.entityId, courseId := none }
  | .course => { base with courseId := some data.entityId, subjectId := none }

/-- The new session built in the `mode === 'add'` branch: a fresh id and
exactly the selected entity reference. -/
def buildNewSession (data : SessionFormData) (newId : String) : ScheduledSession :=
  { id := newId, groupId := data.groupId,
    subjectId := match data.entityType with | .subject => some data.entityId | .course => none,
    courseId := match data.entityType with | .subject => none | .course => some data.entityId,
    day := data.day, timeSlot := data.timeSlot, classroom := data.classroom,
    duration := data.duration }

/-- `handleSessionFormSubmit` in edit mode, as the update it applies to
the session list (unchanged when the required-field guard fires). -/
def submitEdit (sessions : List ScheduledSession) (data : SessionFormData)
    (sessionToEdit : ScheduledSession) : List ScheduledSession :=
  if formIncomplete data then sessions
  else sessions.map (fun s =>
    if s.id == sessionToEdit.id then buildUpdatedSession data sessionToEdit else s)

/-- `handleSessionFormSubmit` in add mode, as the update it applies to
the session list. -/
def submitAdd (sessions : List ScheduledSession) (data : SessionFormData)
    (newId : String) : List ScheduledSession :=
  if formIncomplete data then sessions
  else sessions ++ [buildNewSession data newId]

/-- `handleDuplicateSession`: clone the session with a fresh id and
append; no-op when the id is absent. -/
def duplicateSession (sessions : List ScheduledSession) (sessionId newId : String) :
    List ScheduledSession :=
  match sessions.find? (fun s => s.id == sessionId) with
  | none => sessions
  | some sessionToDuplicate => sessions ++ [{ sessionToDuplicate with id := newId }]

/-- The schedule page state that `confirmDeleteSession` touches, together
with the tenant's attendance records (held in `school.attendance` and not
written by any delete path). -/
structure ScheduleState where
  sessions : List ScheduledSession
  attendance : List Attendance
  sessionToDelete : Option String
  dirty : Bool
  deriving DecidableEq, Repr

/-- `confirmDeleteSession`: `if (!sessionToDelete) return;` then filter
the session out of the list, mark dirty and close the confirmation. -/
def confirmDeleteSession (st : ScheduleState) : ScheduleState :=
  match st.sessionToDelete with
  | none => st
  | some sid =>
    { st with
        sessions := st.sessions.filter (fun s => s.id != sid)
        dirty := true
        sessionToDelete := none }

/-! ### Reference time semantics for the time-grid claim -/

/-- A well-formed `"HH:MM"` wall-clock string: two digit pairs separated
by a single colon. -/
def wellFormedTime (t : String) : Bool :=
  match splitOnChar ':' t.data with
  | [h, m] =>
    h.length == 2 && h.all isDigitChar && m.length == 2 && m.all isDigitChar
  | _ => false

/-- Reference reading of a well-formed `"HH:MM"` string as minutes from
the 08:00 day-start. -/
def hhmmMinutes (t : String) : Option Int :=
  match splitOnChar ':' t.data with
  | [h, m] =>
    if h.all isDigitChar && m.all isDigitChar && !h.isEmpty && !m.isEmpty then
      some ((Int.ofNat (digitsVal h) - 8) * 60 + Int.ofNat (digitsVal m))
    else none
  | _ => none

/-- Modelled from the spec: `toMinutes` is required to fail with a
`ParseError` on malformed input, a behaviour the repository's
`timeToMinutes` does not implement anywhere; `Except` carries the
demanded error channel. -/
def toMinutesSpec (t : String) : Except Unit Int :=
  if wellFormedTime t then
    match hhmmMinutes t with
    | some n => .ok n
    | none => .error ()
  else .error ()

/-! ### Concrete sessions used to instantiate the claim theorems -/

/-- 09:00–10:00, group g1, room 101. -/
def sessA : ScheduledSession :=
  ⟨"a1", "g1", some "subj1", none, "monday", "09:00", "101", 60⟩

/-- 09:30–10:00, group g2, room 102. -/
def sessB : ScheduledSession :=
  ⟨"b2", "g2", none, some "crs1", "monday", "09:30", "102", 30⟩

/-- An unvalidated duplicate of `sessA` (fresh id, all other fields equal),
as produced by `handleDuplicateSession`. -/
def sessDupA : ScheduledSession :=
  { sessA with id := "a1copy" }

/-- Enriched forms of the three-session scenario
09:00–10:00 / 09:30–10:30 / 10:15–11:00. -/
def scenA : ScheduledSession :=
  ⟨"sc1", "g1", some "subj1", none, "monday", "09:00", "101", 60⟩

/-- Second scenario session, 09:30–10:30. -/
def scenB : ScheduledSession :=
  ⟨"sc2", "g1", some "subj1", none, "monday", "09:30", "101", 60⟩

/-- Third scenario session, 10:15–11:00. -/
def scenC : ScheduledSession :=
  ⟨"sc3", "g1", some "subj1", none, "monday", "10:15", "101", 45⟩

/-- `scenA` enriched: [60, 120) minutes from day-start. -/
def scenAE : EnrichedSession := ⟨"sc1", 60, 120⟩

/-- `scenB` enriched: [90, 150). -/
def scenBE : EnrichedSession := ⟨"sc2", 90, 150⟩

/-- `scenC` enriched: [135, 180). -/
def scenCE : EnrichedSession := ⟨"sc3", 135, 180⟩

/-! ### General lemmas about the embedding -/

theorem jsLt_eq_true_iff (a b : Option Int) :
    jsLt a b = true ↔ ∃ x y, a = some x ∧ b = some y ∧ x < y := by
  cases a <;> cases b <;> simp [jsLt]

theorem optAdd_some (x d : Int) : optAdd (some x) d = some (x + d) := rfl

theorem jsToLowerCase_eq_empty_iff (s : String) : jsToLowerCase s = "" ↔ s = "" := by
  constructor
  · intro h
    have hd : (jsToLowerCase s).data = [] := by rw [h]
    have : s.data.map Char.toLower = [] := hd
    have hnil : s.data = [] := List.map_eq_nil_iff.mp this
    cases s with
    | mk data => cases hnil; rfl
  · intro h; rw [h]; rfl

/-! ### C10: unknown candidate id -/

/-- C10: for every session list, proposed day and proposed time slot, if
no session in the list has the candidate id, `isConflict` returns `false`
— a stale or unknown session id reports the placement as conflict-free
rather than raising an error or reporting a conflict. -/
theorem isConflict_unknown_id_false (allSessions : List ScheduledSession)
    (cid newDay newTimeSlot : String)
    (h : ∀ s ∈ allSessions, s.id ≠ cid) :
    isConflict cid newDay newTimeSlot allSessions = false := by
  have hfind : allSessions.find? (fun s => s.id == cid) = none := by
    rw [List.find?_eq_none]
    intro s hs
    simp [h s hs]
  unfold isConflict
  rw [hfind]

/-- Witness for C10 at a concrete two-session list and stale id. -/
theorem isConflict_unknown_id_false_witness :
    isConflict "gone" "monday" "09:00" [sessA, sessB] = false :=
  isConflict_unknown_id_false [sessA, sessB] "gone" "monday" "09:00" (by decide)

/-! ### C8: deleting a session leaves attendance untouched -/

/-- C8: `confirmDeleteSession` removes exactly the sessions bearing the
confirmed id from the session list and leaves every attendance record —
including records whose `sessionId` references the deleted session —
unchanged: attendance is never cascaded and becomes orphaned history. -/
theorem confirmDeleteSession_frame (st : ScheduleState) (sid : String)
    (h : st.sessionToDelete = some sid) :
    (confirmDeleteSession st).attendance = st.attendance ∧
    (confirmDeleteSession st).sessions = st.sessions.filter (fun s => s.id != sid) ∧
    (∀ s ∈ st.sessions, s.id ≠ sid → s ∈ (confirmDeleteSession st).sessions) ∧
    (∀ s ∈ (confirmDeleteSession st).sessions, s ∈ st.sessions ∧ s.id ≠ sid) ∧
    (∀ a ∈ st.attendance, a ∈ (confirmDeleteSession st).attendance) := by
  unfold confirmDeleteSession
  rw [h]
  refine ⟨rfl, rfl, ?_, ?_, ?_⟩
  · intro s hs hne
    simp [List.mem_filter, hs, hne]
  · intro s hs
    simp only [List.mem_filter, bne_iff_ne, ne_eq] at hs
    exact ⟨hs.1, hs.2⟩
  · intro a ha
    exact ha

/-- Witness for C8: deleting `sessA` from a concrete state with an
attendance record referencing it. -/
theorem confirmDeleteSession_frame_witness :
    (confirmDeleteSession ⟨[sessA, sessB], [⟨"att1", "stu1", "a1", "2024-05-10", .present⟩],
        some "a1", false⟩).attendance
      = [⟨"att1", "stu1", "a1", "2024-05-10", .present⟩] ∧
    (confirmDeleteSession ⟨[sessA, sessB], [⟨"att1", "stu1", "a1", "2024-05-10", .present⟩],
        some "a1", false⟩).sessions
      = [sessA, sessB].filter (fun s => s.id != "a1") := by
  have h := confirmDeleteSession_frame
    ⟨[sessA, sessB], [⟨"att1", "stu1", "a1", "2024-05-10", .present⟩], some "a1", false⟩
    "a1" rfl
  exact ⟨h.1, h.2.1⟩

/-! ### C5: the three-session transitive overlap scenario -/

/-- C5: for the three same-day, same-group sessions with intervals
[09:00–10:00], [09:30–10:30] and [10:15–11:00], session 3 overlaps
session 2 but not session 1, yet the overlap grouping puts all three in a
single group (transitive chaining), and the column assignment gives
sessions 1 and 2 distinct columns while session 3 reuses session 1's
column. -/
theorem overlap_scenario_three_sessions :
    enrich scenA = some scenAE ∧ enrich scenB = some scenBE ∧ enrich scenC = some scenCE ∧
    (decide (scenCE.start < scenBE.stop) && decide (scenCE.stop > scenBE.start)) = true ∧
    (decide (scenCE.start < scenAE.stop) && decide (scenCE.stop > scenAE.start)) = false ∧
    findOverlappingGroup scenAE [scenAE, scenBE, scenCE] = some [scenAE, scenBE, scenCE] ∧
    (layoutGroup [scenAE, scenBE, scenCE]).1 = 2 ∧
    colOf (layoutGroup [scenAE, scenBE, scenCE]).2 "sc1" = some 0 ∧
    colOf (layoutGroup [scenAE, scenBE, scenCE]).2 "sc2" = some 1 ∧
    colOf (layoutGroup [scenAE, scenBE, scenCE]).2 "sc3" = some 0 := by
  decide

/-! ### C9: timeToMinutes on well-formed and malformed input -/

theorem digit_not_ws (c : Char) (h : isDigitChar c = true) : isWsChar c = false := by
  simp only [isDigitChar, Bool.and_eq_true, decide_eq_true_eq] at h
  simp only [isWsChar, Bool.or_eq_false_iff, decide_eq_false_iff_not]
  omega

theorem trimChars_of_all_digit (l : List Char) (h : ∀ c ∈ l, isDigitChar c = true) :
    trimChars l = l := by
  have hdrop : ∀ (m : List Char), (∀ c ∈ m, isDigitChar c = true) →
      m.dropWhile isWsChar = m := by
    intro m hm
    cases m with
    | nil => rfl
    | cons c rest =>
      have : isWsChar c = false := digit_not_ws c (hm c (List.mem_cons_self c rest))
      simp [List.dropWhile_cons, this]
  unfold trimChars
  rw [hdrop l h]
  rw [hdrop l.reverse (by intro c hc; exact h c (List.mem_reverse.mp hc))]
  exact List.reverse_reverse l

theorem jsNumber_of_digits (l : List Char) (hne : l ≠ [])
    (h : ∀ c ∈ l, isDigitChar c = true) :
    jsNumber ⟨l⟩ = some (Int.ofNat (digitsVal l)) := by
  unfold jsNumber
  simp only [trimChars_of_all_digit l h]
  rw [if_neg (by simpa [List.isEmpty_iff] using hne)]
  rw [if_pos (by rw [List.all_eq_true]; exact h)]

/-- Witness-facing form: a well-formed time string is non-empty. -/
theorem wellFormedTime_ne_empty (t : String) (h : wellFormedTime t = true) : t ≠ "" := by
  intro he
  subst he
  exact absurd h (by decide)

theorem timeToMinutes_parts (t : String) (hne : t ≠ "") (hd md : List Char)
    (heq : splitOnChar ':' t.data = [hd, md]) (vh vm : Int)
    (hh : jsNumber ⟨hd⟩ = some vh) (hm : jsNumber ⟨md⟩ = some vm) :
    timeToMinutes t = some ((vh - 8) * 60 + vm) := by
  unfold timeToMinutes
  rw [if_neg hne]
  have hjs : jsSplitColon t = [⟨hd⟩, ⟨md⟩] := by
    unfold jsSplitColon
    rw [heq]
    rfl
  rw [hjs]
  simp [hh, hm]

/-- C9 counterexample: `timeToMinutes` does not fail with a `ParseError`
on malformed input — on the malformed (empty) input it returns the
ordinary value `0`, the very value it returns for the valid `"08:00"`,
while the spec-modelled `toMinutesSpec` demands an error there. -/
theorem timeToMinutes_malformed_counterexample :
    wellFormedTime "" = false ∧ toMinutesSpec "" = .error () ∧
    timeToMinutes "" = some 0 ∧ timeToMinutes "08:00" = some 0 :=
  ⟨by decide, rfl, by decide, by decide⟩

/-- C9 (amended): applied to a well-formed `"HH:MM"` string,
`timeToMinutes` returns the number of minutes elapsed since the 08:00
day-start (`"08:00"` maps to `0`); but it never fails on malformed input:
the empty string is mapped to the ordinary value `0` and non-numeric text
to the `NaN` value (`none`), with no `ParseError` anywhere. -/
theorem timeToMinutes_amended (t : String) (h : wellFormedTime t = true) :
    timeToMinutes t = hhmmMinutes t ∧ (hhmmMinutes t).isSome = true ∧
    timeToMinutes "" = some 0 ∧ timeToMinutes "ab:cd" = none := by
  have hne := wellFormedTime_ne_empty t h
  unfold wellFormedTime at h
  split at h
  case h_2 => exact absurd h (by simp)
  case h_1 hd md heq =>
    simp only [Bool.and_eq_true, beq_iff_eq, List.all_eq_true] at h
    obtain ⟨⟨⟨hlen2, hdig⟩, mlen2⟩, mdig⟩ := h
    have hdne : hd ≠ [] := by intro hnil; rw [hnil] at hlen2; simp at hlen2
    have mdne : md ≠ [] := by intro hnil; rw [hnil] at mlen2; simp at mlen2
    have hh := jsNumber_of_digits hd hdne hdig
    have hm := jsNumber_of_digits md mdne mdig
    have htm := timeToMinutes_parts t hne hd md heq _ _ hh hm
    have hhm : hhmmMinutes t = some ((Int.ofNat (digitsVal hd) - 8) * 60
        + Int.ofNat (digitsVal md)) := by
      unfold hhmmMinutes
      rw [heq]
      show (if (hd.all isDigitChar && md.all isDigitChar && !hd.isEmpty && !md.isEmpty) = true
          then some ((Int.ofNat (digitsVal hd) - 8) * 60 + Int.ofNat (digitsVal md))
          else none)
        = some ((Int.ofNat (digitsVal hd) - 8) * 60 + Int.ofNat (digitsVal md))
      rw [if_pos]
      simp only [Bool.and_eq_true, List.all_eq_true, Bool.not_eq_eq_eq_not, Bool.not_true,
        List.isEmpty_eq_false]
      exact ⟨⟨⟨hdig, mdig⟩, hdne⟩, mdne⟩
    refine ⟨?_, ?_, by decide, by decide⟩
    · rw [htm, hhm]
    · rw [hhm]; rfl

/-- Witness for C9's amended theorem at the concrete time `"09:30"`. -/
theorem timeToMinutes_amended_witness :
    timeToMinutes "09:30" = hhmmMinutes "09:30" ∧ (hhmmMinutes "09:30").isSome = true ∧
    timeToMinutes "" = some 0 ∧ timeToMinutes "ab:cd" = none :=
  timeToMinutes_amended "09:30" (by decide)

/-! ### C1 and C2: the conflict detector -/

theorem sessionClash_eq_true_iff (dragged other : ScheduledSession) (cid newDay : String)
    (newStart : Option Int) :
    sessionClash dragged cid newDay newStart (optAdd newStart dragged.duration) other = true ↔
      other.id ≠ cid ∧ other.day = newDay ∧
      (∃ ns os : Int, newStart = some ns ∧ timeToMinutes other.timeSlot = some os ∧
        ns < os + other.duration ∧ os < ns + dragged.duration) ∧
      (other.groupId = dragged.groupId ∨
        (jsToLowerCase (jsTrim other.classroom) = jsToLowerCase (jsTrim dragged.classroom) ∧
          jsToLowerCase (jsTrim other.classroom) ≠ "")) := by
  unfold sessionClash
  by_cases h1 : other.id = cid
  · simp [h1]
  · by_cases h2 : other.day = newDay
    · cases hn : newStart with
      | none => simp [h1, h2, jsLt]
      | some ns =>
        cases hs : timeToMinutes other.timeSlot with
        | none => simp [h1, h2, hs, jsLt, optAdd]
        | some os =>
          by_cases h3 : ns < os + other.duration
          · by_cases h4 : os < ns + dragged.duration
            · simp [h1, h2, hs, jsLt, optAdd, h3, h4, jsToLowerCase_eq_empty_iff]
            · simp [h1, h2, hs, jsLt, optAdd, h3, h4]
          · simp [h1, h2, hs, jsLt, optAdd, h3]
    · simp [h1, h2]

/-- C1: for every session list, candidate session found in it by id, and
proposed day and start time, `isConflict` returns `true` iff some other
session in the list (different id) lies on the proposed day, its interval
`[otherStart, otherEnd)` strictly overlaps the candidate interval
`[newStart, newStart + duration)` (`newStart < otherEnd` and
`newEnd > otherStart`), and the two sessions share a `groupId` or their
classroom labels are equal after trimming and lowercasing and are
non-empty; in particular overlapping sessions with different groups and
different or empty classrooms never conflict. -/
theorem isConflict_iff_overlap_clash (allSessions : List ScheduledSession)
    (cid newDay newTimeSlot : String) (dragged : ScheduledSession)
    (hfind : allSessions.find? (fun s => s.id == cid) = some dragged) :
    isConflict cid newDay newTimeSlot allSessions = true ↔
      ∃ other ∈ allSessions, other.id ≠ cid ∧ other.day = newDay ∧
        (∃ ns os : Int, timeToMinutes newTimeSlot = some ns ∧
          timeToMinutes other.timeSlot = some os ∧
          ns < os + other.duration ∧ os < ns + dragged.duration) ∧
        (other.groupId = dragged.groupId ∨
          (jsToLowerCase (jsTrim other.classroom) = jsToLowerCase (jsTrim dragged.classroom) ∧
            jsToLowerCase (jsTrim other.classroom) ≠ "")) := by
  unfold isConflict
  rw [hfind, List.any_eq_true]
  constructor
  · rintro ⟨other, hmem, hcl⟩
    exact ⟨other, hmem, (sessionClash_eq_true_iff dragged other cid newDay
      (timeToMinutes newTimeSlot)).mp hcl⟩
  · rintro ⟨other, hmem, hcl⟩
    exact ⟨other, hmem, (sessionClash_eq_true_iff dragged other cid newDay
      (timeToMinutes newTimeSlot)).mpr hcl⟩

/-- Witness for C1: `sessA` moved onto 09:00 against `[sessA, sessB]`. -/
theorem isConflict_iff_overlap_clash_witness :
    isConflict "a1" "monday" "09:00" [sessA, sessB] = true ↔
      ∃ other ∈ [sessA, sessB], other.id ≠ "a1" ∧ other.day = "monday" ∧
        (∃ ns os : Int, timeToMinutes "09:00" = some ns ∧
          timeToMinutes other.timeSlot = some os ∧
          ns < os + other.duration ∧ os < ns + sessA.duration) ∧
        (other.groupId = sessA.groupId ∨
          (jsToLowerCase (jsTrim other.classroom) = jsToLowerCase (jsTrim sessA.classroom) ∧
            jsToLowerCase (jsTrim other.classroom) ≠ "")) :=
  isConflict_iff_overlap_clash [sessA, sessB] "a1" "monday" "09:00" sessA (by decide)

/-- C2 counterexample: the claim fails in the presence of an unvalidated
duplicate — `sessA` is in the list, yet `isConflict` at `sessA`'s own
current day and time slot returns `true`, because the duplicate (a
different id, same group, same overlapping interval) clashes with it. -/
theorem noop_move_duplicate_conflict :
    sessA ∈ [sessA, sessDupA] ∧
    isConflict sessA.id sessA.day sessA.timeSlot [sessA, sessDupA] = true := by
  decide

/-- C2 (amended): a no-op move never conflicts with the session's own
entry: `isConflict` at the session's current day and time slot returns
`true` exactly when some *other* session (different id) on that day
strictly overlaps the session's current interval and clashes by group or
by non-empty room — so it returns `false` whenever no other session
conflicts with the current placement, but an unvalidated overlapping
duplicate does make it report a conflict. -/
theorem isConflict_noop_iff (allSessions : List ScheduledSession) (s : ScheduledSession)
    (hfind : allSessions.find? (fun t => t.id == s.id) = some s) :
    isConflict s.id s.day s.timeSlot allSessions = true ↔
      ∃ other ∈ allSessions, other.id ≠ s.id ∧ other.day = s.day ∧
        (∃ ns os : Int, timeToMinutes s.timeSlot = some ns ∧
          timeToMinutes other.timeSlot = some os ∧
          ns < os + other.duration ∧ os < ns + s.duration) ∧
        (other.groupId = s.groupId ∨
          (jsToLowerCase (jsTrim other.classroom) = jsToLowerCase (jsTrim s.classroom) ∧
            jsToLowerCase (jsTrim other.classroom) ≠ "")) := by
  unfold isConflict
  rw [hfind, List.any_eq_true]
  constructor
  · rintro ⟨other, hmem, hcl⟩
    exact ⟨other, hmem, (sessionClash_eq_true_iff s other s.id s.day
      (timeToMinutes s.timeSlot)).mp hcl⟩
  · rintro ⟨other, hmem, hcl⟩
    exact ⟨other, hmem, (sessionClash_eq_true_iff s other s.id s.day
      (timeToMinutes s.timeSlot)).mpr hcl⟩

/-- Witness for C2's amended theorem: `sessA` alone in the list; both
sides of the equivalence are false, so the no-op move is conflict-free. -/
theorem isConflict_noop_iff_witness :
    isConflict sessA.id sessA.day sessA.timeSlot [sessA] = true ↔
      ∃ other ∈ [sessA], other.id ≠ sessA.id ∧ other.day = sessA.day ∧
        (∃ ns os : Int, timeToMinutes sessA.timeSlot = some ns ∧
          timeToMinutes other.timeSlot = some os ∧
          ns < os + other.duration ∧ os < ns + sessA.duration) ∧
        (other.groupId = sessA.groupId ∨
          (jsToLowerCase (jsTrim other.classroom) = jsToLowerCase (jsTrim sessA.classroom) ∧
            jsToLowerCase (jsTrim other.classroom) ≠ "")) :=
  isConflict_noop_iff [sessA] sessA (by decide)

/-! ### C4: the attendance upsert -/

theorem recordAttendance_single (ids : Nat → String) (atts : List Attendance)
    (r : AttendanceInput) :
    recordAttendance ids atts [r] =
      match atts.findIdx? (matchesKey r) with
      | some i => atts.modify (fun a => { a with status := r.status }) i
      | none => atts ++ [⟨ids 0, r.studentId, r.sessionId, r.date, r.status⟩] := by
  unfold recordAttendance upsertOne
  simp only [List.foldl_cons, List.foldl_nil]
  cases h : atts.findIdx? (matchesKey r) <;> simp [h]

theorem modify_append_singleton (f : α → α) :
    ∀ (l : List α) (x : α), (l ++ [x]).modify f l.length = l ++ [f x]
  | [], _ => rfl
  | a :: l, x => congrArg (a :: ·) (modify_append_singleton f l x)

/-- C4: `recordAttendance` upserts by the composite key
`(studentId, sessionId, date)`: a record matching the triple has only its
status overwritten (id kept, nothing appended), otherwise one new record
with a fresh identity is appended; re-submitting the same record is a
no-op leaving exactly one matching row, and re-submitting the triple with
a different status updates that single row in place. -/
theorem recordAttendance_upsert_spec (ids ids2 ids3 : Nat → String)
    (atts : List Attendance) (r r2 : AttendanceInput)
    (hnone : ∀ a ∈ atts, matchesKey r a = false)
    (hst : r2.studentId = r.studentId ∧ r2.sessionId = r.sessionId ∧ r2.date = r.date) :
    (∀ (atts' : List Attendance) (i : Nat), atts'.findIdx? (matchesKey r) = some i →
      recordAttendance ids atts' [r]
        = atts'.modify (fun a => { a with status := r.status }) i) ∧
    recordAttendance ids atts [r]
      = atts ++ [⟨ids 0, r.studentId, r.sessionId, r.date, r.status⟩] ∧
    (recordAttendance ids atts [r]).countP (matchesKey r) = 1 ∧
    recordAttendance ids2 (recordAttendance ids atts [r]) [r]
      = recordAttendance ids atts [r] ∧
    recordAttendance ids3 (recordAttendance ids atts [r]) [r2]
      = atts ++ [⟨ids 0, r.studentId, r.sessionId, r.date, r2.status⟩] := by
  have hfnone : atts.findIdx? (matchesKey r) = none :=
    List.findIdx?_eq_none_iff.mpr hnone
  have hkey : matchesKey r (⟨ids 0, r.studentId, r.sessionId, r.date, r.status⟩ : Attendance)
      = true := by
    simp [matchesKey]
  have happend : recordAttendance ids atts [r]
      = atts ++ [⟨ids 0, r.studentId, r.sessionId, r.date, r.status⟩] := by
    rw [recordAttendance_single, hfnone]
  have hfound : (atts ++ [(⟨ids 0, r.studentId, r.sessionId, r.date, r.status⟩ : Attendance)]).findIdx?
      (matchesKey r) = some atts.length := by
    simp [List.findIdx?_append, hfnone, List.findIdx?_cons, hkey]
  have hkeys2 : matchesKey r2 = matchesKey r := by
    funext a
    simp [matchesKey, hst.1, hst.2.1, hst.2.2]
  refine ⟨?_, happend, ?_, ?_, ?_⟩
  · intro atts' i h
    rw [recordAttendance_single, h]
  · rw [happend, List.countP_append]
    have h0 : atts.countP (matchesKey r) = 0 := by
      rw [List.countP_eq_zero]
      intro a ha
      simp [hnone a ha]
    rw [h0]
    simp [List.countP_cons, hkey]
  · rw [happend, recordAttendance_single, hfound]
    show (atts ++ [(⟨ids 0, r.studentId, r.sessionId, r.date, r.status⟩ : Attendance)]).modify
        (fun a => { a with status := r.status }) atts.length
      = atts ++ [(⟨ids 0, r.studentId, r.sessionId, r.date, r.status⟩ : Attendance)]
    rw [modify_append_singleton]
  · rw [happend, recordAttendance_single, hkeys2, hfound]
    show (atts ++ [(⟨ids 0, r.studentId, r.sessionId, r.date, r.status⟩ : Attendance)]).modify
        (fun a => { a with status := r2.status }) atts.length
      = atts ++ [(⟨ids 0, r.studentId, r.sessionId, r.date, r2.status⟩ : Attendance)]
    rw [modify_append_singleton]

/-- Witness for C4: recording `(stu1, sess1, 2024-05-10, present)` into a
list holding one non-matching record, then re-recording, then flipping to
`absent`. -/
theorem recordAttendance_upsert_spec_witness :
    (∀ (atts' : List Attendance) (i : Nat),
      atts'.findIdx? (matchesKey ⟨"stu1", "sess1", "2024-05-10", .present⟩) = some i →
      recordAttendance (fun _ => "fresh1") atts' [⟨"stu1", "sess1", "2024-05-10", .present⟩]
        = atts'.modify (fun a => { a with status := AttendanceStatus.present }) i) ∧
    recordAttendance (fun _ => "fresh1") [⟨"att9", "stuX", "sessX", "2024-05-09", .late⟩]
        [⟨"stu1", "sess1", "2024-05-10", .present⟩]
      = [⟨"att9", "stuX", "sessX", "2024-05-09", .late⟩]
        ++ [⟨"fresh1", "stu1", "sess1", "2024-05-10", .present⟩] ∧
    ((recordAttendance (fun _ => "fresh1") [⟨"att9", "stuX", "sessX", "2024-05-09", .late⟩]
        [⟨"stu1", "sess1", "2024-05-10", .present⟩]).countP
      (matchesKey ⟨"stu1", "sess1", "2024-05-10", .present⟩)) = 1 ∧
    recordAttendance (fun _ => "fresh2")
        (recordAttendance (fun _ => "fresh1") [⟨"att9", "stuX", "sessX", "2024-05-09", .late⟩]
          [⟨"stu1", "sess1", "2024-05-10", .present⟩])
        [⟨"stu1", "sess1", "2024-05-10", .present⟩]
      = recordAttendance (fun _ => "fresh1") [⟨"att9", "stuX", "sessX", "2024-05-09", .late⟩]
          [⟨"stu1", "sess1", "2024-05-10", .present⟩] ∧
    recordAttendance (fun _ => "fresh3")
        (recordAttendance (fun _ => "fresh1") [⟨"att9", "stuX", "sessX", "2024-05-09", .late⟩]
          [⟨"stu1", "sess1", "2024-05-10", .present⟩])
        [⟨"stu1", "sess1", "2024-05-10", .absent⟩]
      = [⟨"att9", "stuX", "sessX", "2024-05-09", .late⟩]
        ++ [⟨"fresh1", "stu1", "sess1", "2024-05-10", .absent⟩] :=
  recordAttendance_upsert_spec (fun _ => "fresh1") (fun _ => "fresh2") (fun _ => "fresh3")
    [⟨"att9", "stuX", "sessX", "2024-05-09", .late⟩]
    ⟨"stu1", "sess1", "2024-05-10", .present⟩ ⟨"stu1", "sess1", "2024-05-10", .absent⟩
    (by decide) (by decide)

/-! ### C6: drop-move is validated before any mutation -/

/-- C6: the move is validated by the conflict detector before any
mutation: when `isConflict` reports a conflict the drop is rejected, the
session list is returned exactly as it was and the error toast is
surfaced; when no conflict is reported there is no error and the
resulting list is the original with only the dragged session's `day` and
`timeSlot` fields rewritten (all other sessions, and all other fields,
unchanged). -/
theorem handleDrop_spec (sessions : List ScheduledSession) (cid day timeSlot : String)
    (hids : (sessions.map ScheduledSession.id).Nodup) :
    (isConflict cid day timeSlot sessions = true →
      handleDrop sessions cid day timeSlot = ⟨sessions, true, false⟩) ∧
    (isConflict cid day timeSlot sessions = false →
      (handleDrop sessions cid day timeSlot).conflictToast = false ∧
      (handleDrop sessions cid day timeSlot).sessions = sessions.map (fun s =>
        if s.id = cid then { s with day := day, timeSlot := timeSlot } else s)) := by
  constructor
  · intro h
    unfold handleDrop
    rw [if_pos h]
  · intro h
    unfold handleDrop
    rw [if_neg (by simp [h])]
    cases hfind : sessions.find? (fun s => s.id == cid) with
    | none =>
      have hnone : ∀ s ∈ sessions, s.id ≠ cid := by
        intro s hs
        have := List.find?_eq_none.mp hfind s hs
        simpa using this
      refine ⟨rfl, ?_⟩
      show sessions = _
      rw [List.map_congr_left (g := id) ?_, List.map_id]
      intro s hs
      simp [hnone s hs]
    | some dragged =>
      have hdid : dragged.id = cid := by
        have := List.find?_some hfind
        simpa using this
      have hdmem : dragged ∈ sessions := List.mem_of_find?_eq_some hfind
      dsimp only
      by_cases hnoop : dragged.day == day && dragged.timeSlot == timeSlot
      · rw [if_pos hnoop]
        simp only [Bool.and_eq_true, beq_iff_eq] at hnoop
        refine ⟨rfl, ?_⟩
        show sessions = _
        rw [List.map_congr_left (g := id) ?_, List.map_id]
        intro s hs
        by_cases hsid : s.id = cid
        · have hseq : s = dragged :=
            List.inj_on_of_nodup_map hids hs hdmem (by rw [hsid, hdid])
          subst hseq
          rw [if_pos hsid, ← hnoop.1, ← hnoop.2]
          rfl
        · simp [hsid]
      · rw [if_neg hnoop]
        refine ⟨rfl, ?_⟩
        show sessions.map _ = _
        apply List.map_congr_left
        intro s _
        by_cases hsid : s.id = cid <;> simp [hsid]

/-- Witness for C6: dropping `sessB` onto tuesday 11:00 in a
conflict-free two-session list. -/
theorem handleDrop_spec_witness :
    (isConflict "b2" "tuesday" "11:00" [sessA, sessB] = true →
      handleDrop [sessA, sessB] "b2" "tuesday" "11:00" = ⟨[sessA, sessB], true, false⟩) ∧
    (isConflict "b2" "tuesday" "11:00" [sessA, sessB] = false →
      (handleDrop [sessA, sessB] "b2" "tuesday" "11:00").conflictToast = false ∧
      (handleDrop [sessA, sessB] "b2" "tuesday" "11:00").sessions = [sessA, sessB].map (fun s =>
        if s.id = "b2" then { s with day := "tuesday", timeSlot := "11:00" } else s)) :=
  handleDrop_spec [sessA, sessB] "b2" "tuesday" "11:00" (by decide)

/-! ### C7: exactly one of subjectId / courseId -/

/-- The polymorphic-entity invariant: exactly one of `subjectId` and
`courseId` is set. -/
def exactlyOneEntity (s : ScheduledSession) : Prop :=
  (s.subjectId.isSome = true ∧ s.courseId = none) ∨
  (s.subjectId = none ∧ s.courseId.isSome = true)

instance : DecidablePred exactlyOneEntity := fun s => by
  unfold exactlyOneEntity
  infer_instance

theorem buildNewSession_exactlyOne (data : SessionFormData) (newId : String) :
    exactlyOneEntity (buildNewSession data newId) := by
  cases h : data.entityType <;> simp [buildNewSession, h, exactlyOneEntity]

theorem buildUpdatedSession_exactlyOne (data : SessionFormData) (old : ScheduledSession) :
    exactlyOneEntity (buildUpdatedSession data old) := by
  cases h : data.entityType <;> simp [buildUpdatedSession, h, exactlyOneEntity]

/-- C7: every session produced by add, edit (including switching the
entity between subject and course, which clears the other reference
field) and duplicate has exactly one of `subjectId` or `courseId` set —
never both, never neither; a session list satisfying this invariant still
satisfies it after each of the three operations. -/
theorem session_entity_exclusive (sessions : List ScheduledSession)
    (data : SessionFormData) (old : ScheduledSession) (sid newId dupId : String)
    (hinv : ∀ s ∈ sessions, exactlyOneEntity s) :
    (∀ s ∈ submitAdd sessions data newId, exactlyOneEntity s) ∧
    (∀ s ∈ submitEdit sessions data old, exactlyOneEntity s) ∧
    (∀ s ∈ duplicateSession sessions sid dupId, exactlyOneEntity s) := by
  refine ⟨?_, ?_, ?_⟩
  · intro s hs
    unfold submitAdd at hs
    by_cases hc : formIncomplete data
    · rw [if_pos hc] at hs
      exact hinv s hs
    · rw [if_neg hc] at hs
      rcases List.mem_append.mp hs with h | h
      · exact hinv s h
      · rw [List.mem_singleton.mp h]
        exact buildNewSession_exactlyOne data newId
  · intro s hs
    unfold submitEdit at hs
    by_cases hc : formIncomplete data
    · rw [if_pos hc] at hs
      exact hinv s hs
    · rw [if_neg hc] at hs
      rcases List.mem_map.mp hs with ⟨t, ht, heq⟩
      by_cases hid : t.id == old.id
      · rw [if_pos hid] at heq
        rw [← heq]
        exact buildUpdatedSession_exactlyOne data old
      · rw [if_neg hid] at heq
        rw [← heq]
        exact hinv t ht
  · intro s hs
    unfold duplicateSession at hs
    cases hfind : sessions.find? (fun s => s.id == sid) with
    | none =>
      rw [hfind] at hs
      exact hinv s hs
    | some s0 =>
      rw [hfind] at hs
      rcases List.mem_append.mp hs with h | h
      · exact hinv s h
      · rw [List.mem_singleton.mp h]
        have h0 := hinv s0 (List.mem_of_find?_eq_some hfind)
        rcases h0 with ⟨h1, h2⟩ | ⟨h1, h2⟩
        · exact Or.inl ⟨h1, h2⟩
        · exact Or.inr ⟨h1, h2⟩

/-- Witness for C7: the three operations applied to the concrete
invariant-satisfying list `[sessA, sessB]`. -/
theorem session_entity_exclusive_witness :
    (∀ s ∈ submitAdd [sessA, sessB]
        ⟨.course, "crs2", "tuesday", "10:00", "103", 90, "g2"⟩ "n1", exactlyOneEntity s) ∧
    (∀ s ∈ submitEdit [sessA, sessB]
        ⟨.course, "crs2", "tuesday", "10:00", "103", 90, "g2"⟩ sessA, exactlyOneEntity s) ∧
    (∀ s ∈ duplicateSession [sessA, sessB] "a1" "d1", exactlyOneEntity s) :=
  session_entity_exclusive [sessA, sessB]
    ⟨.course, "crs2", "tuesday", "10:00", "103", 90, "g2"⟩ sessA "a1" "n1" "d1"
    (by decide)

/-! ### C3: sessions sharing a column have disjoint intervals -/

theorem mem_insertByStart (a x : EnrichedSession) :
    ∀ (l : List EnrichedSession), x ∈ insertByStart a l ↔ x = a ∨ x ∈ l
  | [] => by simp [insertByStart]
  | b :: rest => by
    unfold insertByStart
    by_cases h : a.start ≤ b.start
    · rw [if_pos h]
      simp only [List.mem_cons]
    · rw [if_neg h]
      simp only [List.mem_cons, mem_insertByStart a x rest]
      tauto

theorem mem_sortByStart (x : EnrichedSession) :
    ∀ (l : List EnrichedSession), x ∈ sortByStart l ↔ x ∈ l
  | [] => Iff.rfl
  | a :: rest => by
    unfold sortByStart
    rw [mem_insertByStart]
    simp only [List.mem_cons, mem_sortByStart x rest]

/-- Every session of a disjoint chain ends at or before the chain's last
session ends. -/
theorem pairwise_getLast_bound (c : List EnrichedSession) :
    c.Pairwise (fun a b => a.stop ≤ b.start) → (∀ t ∈ c, t.start ≤ t.stop) →
    ∀ lst, c.getLast? = some lst → ∀ a ∈ c, a.stop ≤ lst.stop := by
  induction c with
  | nil => intro _ _ lst hl; simp at hl
  | cons x rest ih =>
    intro hp hw lst hl a ha
    cases rest with
    | nil =>
      have hx : x = lst := by simpa using hl
      have hax : a = x := List.mem_singleton.mp ha
      rw [hax, hx]
    | cons y t =>
      rw [List.getLast?_cons_cons] at hl
      rcases List.mem_cons.mp ha with rfl | ha'
      · have hlst_mem : lst ∈ y :: t :=
          List.mem_of_mem_getLast? (Option.mem_def.mpr hl)
        have hra : a.stop ≤ lst.start := (List.pairwise_cons.mp hp).1 lst hlst_mem
        have hwl : lst.start ≤ lst.stop := hw lst (List.mem_cons_of_mem _ hlst_mem)
        exact le_trans hra hwl
      · exact ih (List.pairwise_cons.mp hp).2
          (fun u hu => hw u (List.mem_cons_of_mem _ hu)) lst hl a ha'

/-- Characterisation of a successful first-fit placement. -/
theorem placeInColumns_some (s : EnrichedSession) :
    ∀ (cols cols' : List (List EnrichedSession)) (i : Nat),
      placeInColumns s cols = some (cols', i) →
      i < cols.length ∧
      (∃ lst, (cols.getD i []).getLast? = some lst ∧ lst.stop ≤ s.start) ∧
      cols' = cols.set i (cols.getD i [] ++ [s]) := by
  intro cols
  induction cols with
  | nil => intro cols' i h; simp [placeInColumns] at h
  | cons col rest ih =>
    intro cols' i h
    unfold placeInColumns at h
    split at h
    next lastIn hl =>
      split at h
      next hc =>
        rw [Option.some.injEq, Prod.mk.injEq] at h
        obtain ⟨hcols', hi⟩ := h
        subst hcols'
        subst hi
        refine ⟨by simp, ⟨lastIn, by simpa using hl, hc⟩, by simp⟩
      next hc =>
        rcases Option.map_eq_some'.mp h with ⟨⟨cs, j⟩, hrec, heq⟩
        rw [Prod.mk.injEq] at heq
        obtain ⟨hcols', hi⟩ := heq
        subst hcols'
        subst hi
        obtain ⟨hj, ⟨lst, hlst, hle⟩, hset⟩ := ih cs j hrec
        refine ⟨by simpa using Nat.succ_lt_succ hj, ⟨lst, by simpa using hlst, hle⟩, ?_⟩
        simp [hset]
    next hl =>
      rcases Option.map_eq_some'.mp h with ⟨⟨cs, j⟩, hrec, heq⟩
      rw [Prod.mk.injEq] at heq
      obtain ⟨hcols', hi⟩ := heq
      subst hcols'
      subst hi
      obtain ⟨hj, ⟨lst, hlst, hle⟩, hset⟩ := ih cs j hrec
      refine ⟨by simpa using Nat.succ_lt_succ hj, ⟨lst, by simpa using hlst, hle⟩, ?_⟩
      simp [hset]

/-- Invariant maintained by the greedy layout fold: every column is a
pairwise-disjoint chain of sessions drawn from `pool`, and every recorded
assignment points at a column containing a session with the assigned
id. -/
def layoutInv (pool : List EnrichedSession)
    (acc : List (List EnrichedSession) × List (String × Nat)) : Prop :=
  (∀ c ∈ acc.1, c.Pairwise (fun a b => a.stop ≤ b.start) ∧ ∀ t ∈ c, t ∈ pool) ∧
  (∀ p ∈ acc.2, ∃ t, t ∈ acc.1.getD p.2 [] ∧ t.id = p.1)

theorem lgStep_eq (cols : List (List EnrichedSession)) (assign : List (String × Nat))
    (s : EnrichedSession) :
    lgStep (cols, assign) s =
      match placeInColumns s cols with
      | some (cols', i) => (cols', assign ++ [(s.id, i)])
      | none => (cols ++ [[s]], assign ++ [(s.id, cols.length)]) := rfl

theorem lgStep_inv (pool : List EnrichedSession) (hwf : ∀ t ∈ pool, t.start ≤ t.stop)
    (s : EnrichedSession) (hs : s ∈ pool)
    (acc : List (List EnrichedSession) × List (String × Nat))
    (hinv : layoutInv pool acc) : layoutInv pool (lgStep acc s) := by
  obtain ⟨cols, assign⟩ := acc
  obtain ⟨hcols, hassign⟩ := hinv
  rw [lgStep_eq]
  cases hplace : placeInColumns s cols with
  | none =>
    show layoutInv pool (cols ++ [[s]], assign ++ [(s.id, cols.length)])
    constructor
    · intro c hc
      rcases List.mem_append.mp hc with h | h
      · exact hcols c h
      · rw [List.mem_singleton.mp h]
        refine ⟨List.pairwise_singleton _ _, ?_⟩
        intro t ht
        rw [List.mem_singleton.mp ht]
        exact hs
    · intro p hp
      rcases List.mem_append.mp hp with h | h
      · obtain ⟨t, ht, hid⟩ := hassign p h
        refine ⟨t, ?_, hid⟩
        have hlt : p.2 < cols.length := by
          by_contra hge
          rw [List.getD_eq_default _ _ (Nat.le_of_not_lt hge)] at ht
          exact absurd ht (List.not_mem_nil t)
        rw [List.getD_eq_getElem?_getD, List.getElem?_append_left hlt,
          ← List.getD_eq_getElem?_getD]
        exact ht
      · rw [List.mem_singleton.mp h]
        refine ⟨s, ?_, rfl⟩
        rw [List.getD_eq_getElem?_getD, List.getElem?_append_right (Nat.le_refl _)]
        simp
  | some res =>
    obtain ⟨cols', i⟩ := res
    show layoutInv pool (cols', assign ++ [(s.id, i)])
    obtain ⟨hi, ⟨lst, hlst, hle⟩, hset⟩ := placeInColumns_some s cols cols' i hplace
    have hci_mem : cols.getD i [] ∈ cols := by
      rw [List.getD_eq_getElem _ _ hi]
      exact List.getElem_mem hi
    obtain ⟨hpw, hsub⟩ := hcols _ hci_mem
    have hbound : ∀ a ∈ cols.getD i [], a.stop ≤ s.start := by
      intro a ha
      exact le_trans
        (pairwise_getLast_bound _ hpw (fun u hu => hwf u (hsub u hu)) lst hlst a ha) hle
    have hnewcol : (cols.getD i [] ++ [s]).Pairwise (fun a b => a.stop ≤ b.start) ∧
        ∀ t ∈ cols.getD i [] ++ [s], t ∈ pool := by
      constructor
      · rw [List.pairwise_append]
        refine ⟨hpw, List.pairwise_singleton _ _, ?_⟩
        intro a ha b hb
        rw [List.mem_singleton.mp hb]
        exact hbound a ha
      · intro t ht
        rcases List.mem_append.mp ht with h | h
        · exact hsub t h
        · rw [List.mem_singleton.mp h]
          exact hs
    subst hset
    constructor
    · intro c hc
      rcases List.mem_or_eq_of_mem_set hc with h | h
      · exact hcols c h
      · rw [h]
        exact hnewcol
    · intro p hp
      rcases List.mem_append.mp hp with h | h
      · obtain ⟨t, ht, hid⟩ := hassign p h
        by_cases hpi : p.2 = i
        · refine ⟨t, ?_, hid⟩
          rw [hpi] at ht ⊢
          rw [List.getD_eq_getElem?_getD, List.getElem?_set_self hi, Option.getD_some]
          exact List.mem_append_left _ ht
        · refine ⟨t, ?_, hid⟩
          rw [List.getD_eq_getElem?_getD, List.getElem?_set_ne (fun he => hpi he.symm),
            ← List.getD_eq_getElem?_getD]
          exact ht
      · rw [List.mem_singleton.mp h]
        refine ⟨s, ?_, rfl⟩
        rw [List.getD_eq_getElem?_getD, List.getElem?_set_self hi, Option.getD_some]
        exact List.mem_append_right _ (List.mem_singleton_self s)

theorem foldl_lgStep_inv (pool : List EnrichedSession)
    (hwf : ∀ t ∈ pool, t.start ≤ t.stop) :
    ∀ (l : List EnrichedSession) (acc : List (List EnrichedSession) × List (String × Nat)),
      (∀ x ∈ l, x ∈ pool) → layoutInv pool acc → layoutInv pool (l.foldl lgStep acc)
  | [], _, _, hinv => hinv
  | x :: l, acc, hl, hinv => by
    rw [List.foldl_cons]
    exact foldl_lgStep_inv pool hwf l _ (fun y hy => hl y (List.mem_cons_of_mem _ hy))
      (lgStep_inv pool hwf x (hl x (List.mem_cons_self _ _)) acc hinv)

theorem layoutGroup_snd (g : List EnrichedSession) :
    (layoutGroup g).2 = (layoutColumns g).2 := by
  unfold layoutGroup
  rcases layoutColumns g with ⟨c, a⟩
  rfl

/-- C3: in the layout computed for an overlap group (well-formed
intervals, distinct session ids), any two distinct sessions assigned the
same column index have disjoint time intervals — the later one starts at
or after the earlier one ends; contrapositively, sessions with
overlapping intervals always receive distinct column indices under the
greedy first-fit assignment over sessions sorted by ascending start
time. -/
theorem layoutGroup_same_column_disjoint (group : List EnrichedSession)
    (hwf : ∀ s ∈ group, s.start ≤ s.stop)
    (hids : (group.map EnrichedSession.id).Nodup)
    (s1 s2 : EnrichedSession) (h1 : s1 ∈ group) (h2 : s2 ∈ group)
    (hne : s1.id ≠ s2.id) (i : Nat)
    (hc1 : colOf (layoutGroup group).2 s1.id = some i)
    (hc2 : colOf (layoutGroup group).2 s2.id = some i) :
    s1.stop ≤ s2.start ∨ s2.stop ≤ s1.start := by
  have hinv : layoutInv group (layoutColumns group) := by
    apply foldl_lgStep_inv group hwf
    · intro x hx
      exact (mem_sortByStart x group).mp hx
    · exact ⟨fun c hc => absurd hc (List.not_mem_nil c),
        fun p hp => absurd hp (List.not_mem_nil p)⟩
  rw [layoutGroup_snd] at hc1 hc2
  obtain ⟨hcols, hassign⟩ := hinv
  have hfind : ∀ (sid : String),
      colOf (layoutColumns group).2 sid = some i →
      ∃ t, t ∈ (layoutColumns group).1.getD i [] ∧ t.id = sid := by
    intro sid hcol
    unfold colOf at hcol
    rcases Option.map_eq_some'.mp hcol with ⟨p, hp, hpi⟩
    have hmem := List.mem_of_find?_eq_some hp
    have hpid : p.1 = sid := by simpa using List.find?_some hp
    obtain ⟨t, ht, hid⟩ := hassign p hmem
    exact ⟨t, by rw [← hpi]; exact ht, by rw [hid, hpid]⟩
  obtain ⟨t1, ht1, hid1⟩ := hfind s1.id hc1
  obtain ⟨t2, ht2, hid2⟩ := hfind s2.id hc2
  have hcolmem : (layoutColumns group).1.getD i [] ∈ (layoutColumns group).1 := by
    have hlt : i < (layoutColumns group).1.length := by
      by_contra hge
      rw [List.getD_eq_default _ _ (Nat.le_of_not_lt hge)] at ht1
      exact absurd ht1 (List.not_mem_nil t1)
    rw [List.getD_eq_getElem _ _ hlt]
    exact List.getElem_mem hlt
  obtain ⟨hpw, hsub⟩ := hcols _ hcolmem
  have ht1eq : t1 = s1 :=
    List.inj_on_of_nodup_map hids (hsub t1 ht1) h1 (by rw [hid1])
  have ht2eq : t2 = s2 :=
    List.inj_on_of_nodup_map hids (hsub t2 ht2) h2 (by rw [hid2])
  have hpw' : ((layoutColumns group).1.getD i []).Pairwise
      (fun a b => a.stop ≤ b.start ∨ b.stop ≤ a.start) :=
    hpw.imp (fun h => Or.inl h)
  have hsym : Symmetric (fun a b : EnrichedSession => a.stop ≤ b.start ∨ b.stop ≤ a.start) :=
    fun _ _ h => h.symm
  refine hpw'.forall hsym ?_ ?_ ?_
  · rw [← ht1eq]; exact ht1
  · rw [← ht2eq]; exact ht2
  · intro heq
    exact hne (by rw [heq])

/-- Witness for C3: in the concrete three-session scenario, sessions 1
and 3 share column 0 and indeed have disjoint intervals. -/
theorem layoutGroup_same_column_disjoint_witness :
    scenAE.stop ≤ scenCE.start ∨ scenCE.stop ≤ scenAE.start :=
  layoutGroup_same_column_disjoint [scenAE, scenBE, scenCE] (by decide) (by decide)
    scenAE scenCE (by decide) (by decide) (by decide) 0 (by decide) (by decide)

end Idarati
